import Mathlib

/-!
# Verification of the SF roof-lead-generation pipeline

Shallow embedding of the repository's Python sources
(`src/utils.py`, `src/pipeline.py`, `src/skip_trace_client.py`,
`src/datasf_client.py`) and proofs of the frozen claims about them.

Python dictionaries are modelled as association lists of string keys and
`Value`s; lookup takes the first matching pair, and the merge
`{**a, **b}` is modelled by a right-biased merge that gives the same
lookups as the Python dictionary union.  Network transports are modelled
as oracles (functions from offset or batch index to the response), so
that the pure record-processing logic is exactly the source's.
-/

namespace SFRoof

/-- A Python value as it appears in the pipeline's record dictionaries:
a string, an integer, or `None`. -/
inductive Value where
  | vStr (s : String)
  | vInt (n : Int)
  | vNull
deriving DecidableEq, Repr

open Value

/-- Python truthiness of a `Value` (`""`, `0` and `None` are falsy). -/
def pyTruthy : Value → Bool
  | vStr s => s ≠ ""
  | vInt n => n ≠ 0
  | vNull => false

/-- A Python dict, as an association list (keys unique in practice;
lookup takes the first match). -/
abbrev Dict := List (String × Value)

/-- `d.get(key)` / `d[key]`: first value stored under `key`, if any. -/
def dget : Dict → String → Option Value
  | [], _ => none
  | (k, v) :: rest, key => if k = key then some v else dget rest key

/-- `key in d`. -/
def hasKey (d : Dict) (k : String) : Bool := (dget d k).isSome

/-- `d[key] = v`: replace the first binding of `key`, or append one. -/
def dset : Dict → String → Value → Dict
  | [], k, v => [(k, v)]
  | (k', v') :: rest, k, v =>
      if k' = k then (k, v) :: rest else (k', v') :: dset rest k v

/-- `{**a, **b}`: right-biased dictionary merge.  The association list
keeps `b`'s bindings and the bindings of `a` whose key `b` lacks, which
gives the same lookups as the Python dict union. -/
def dmerge (a b : Dict) : Dict :=
  a.filter (fun kv => !(hasKey b kv.1)) ++ b

/-! ## `src/utils.py` -/

/-- Python `str.zfill(width)`: left-pad with `'0'` up to `width`
characters; a leading `'+'`/`'-'` stays in front of the padding. -/
def zfill (s : String) (w : Nat) : String :=
  let cs := s.toList
  if w ≤ cs.length then s
  else if cs.head? = some '+' ∨ cs.head? = some '-' then
    String.mk (cs.take 1 ++ (List.replicate (w - cs.length) '0' ++ cs.drop 1))
  else
    String.mk (List.replicate (w - cs.length) '0' ++ cs)

/-- Python truthiness of a string-or-`None` argument
(`None` and `""` are falsy). -/
def truthyStr : Option String → Bool
  | none => false
  | some s => s ≠ ""

/-- `utils.format_block_lot`: `""` if either argument is falsy, else
`block.zfill(4) + "-" + lot.zfill(3)`. -/
def format_block_lot (block lot : Option String) : String :=
  if !truthyStr block || !truthyStr lot then ""
  else zfill (block.getD "") 4 ++ "-" ++ zfill (lot.getD "") 3

/-- The shape `^\d\x7b4\x7d-\d\x7b3\x7d$`: four digits, a hyphen,
three digits. -/
def matchesShape (s : String) : Bool :=
  let cs := s.toList
  cs.length = 8 && (cs.take 4).all (·.isDigit) &&
    ((cs.drop 4).head? == some '-') && (cs.drop 5).all (·.isDigit)

/-- `utils.deduplicate_by_key`, generalised over the running `seen`
set: keep a record when its value under `key` is truthy and not yet
seen; records with a falsy or absent value are dropped. -/
def dedupAux (key : String) : List Dict → List Value → List Dict
  | [], _ => []
  | r :: rs, seen =>
      match dget r key with
      | some v =>
          if pyTruthy v ∧ v ∉ seen then r :: dedupAux key rs (v :: seen)
          else dedupAux key rs seen
      | none => dedupAux key rs seen

/-- `utils.deduplicate_by_key(records, key)`. -/
def deduplicate_by_key (records : List Dict) (key : String) : List Dict :=
  dedupAux key records []

/-- Worker for `chunk_list`, structurally recursive on a fuel that
bounds the list length: slice off `n` elements at a time. -/
def chunkFuel (n : Nat) : Nat → List α → List (List α)
  | _, [] => []
  | 0, _ :: _ => []
  | fuel + 1, x :: xs => ((x :: xs).take n) :: chunkFuel n fuel ((x :: xs).drop n)

/-- `utils.chunk_list(lst, chunk_size)`: consecutive slices of
`chunk_size` elements.  (Python raises on `chunk_size = 0`; that case
is never reached and is modelled as no chunks.) -/
def chunk_list (l : List α) (n : Nat) : List (List α) :=
  if n = 0 then [] else chunkFuel n l.length l

/-- Lexicographic order on character lists, by code point — the order
Python uses to compare strings. -/
def lexLe : List Char → List Char → Bool
  | [], _ => true
  | _ :: _, [] => false
  | a :: as, b :: bs => if a < b then true else if a = b then lexLe as bs else false

/-- Python `s >= t` for strings, as used for `last_reported >= "2024"`. -/
def strGe (s t : String) : Bool := lexLe t.toList s.toList

/-! ## `src/skip_trace_client.py` -/

/-- A phone entry of a BatchData person object, with the fields the
client reads via `.get` (absent fields are the `.get` defaults:
`""`, `False`, `0`). -/
structure Phone where
  number : String
  tested : Bool
  reachable : Bool
  score : Int
  dnc : Bool
  lastReportedDate : String
  ptype : String
deriving DecidableEq, Repr

/-- A mailing-address object under `property.owner.mailingAddress`. -/
structure MailingAddress where
  street : String
  city : String
  state : String
  zip : String
deriving DecidableEq, Repr

/-- A BatchData person result: the name parts, the phone list, the
email strings (the `.get("email", "")` of each entry), the optional
mailing address (`none` for a missing or empty object), and the
truthiness of `meta.matched`. -/
structure Person where
  first : String
  last : String
  phoneNumbers : List Phone
  emails : List String
  mailing : Option MailingAddress
  matched : Bool
deriving DecidableEq, Repr

/-- Python `str.title()`: upper-case a letter that does not follow a
letter, lower-case the others. -/
def titleAux : List Char → Bool → List Char
  | [], _ => []
  | c :: cs, prevAlpha =>
      (if c.isAlpha then (if prevAlpha then c.toLower else c.toUpper) else c) ::
        titleAux cs c.isAlpha

/-- Python `str.title()` on a string. -/
def pyTitle (s : String) : String := String.mk (titleAux s.toList false)

/-- `last_reported and last_reported >= "2024"` — the `is_recent`
check of `_extract_contacts`. -/
def phoneIsRecent (ph : Phone) : Bool :=
  ph.lastReportedDate ≠ "" && strGe ph.lastReportedDate "2024"

/-- The quality points accumulated for one phone in
`_extract_contacts`: +50 tested and reachable, +40 recent, +20 for
score ≥ 95 else +10 for score ≥ 90 (score must be truthy), +10 for a
mobile line. -/
def phoneQuality (ph : Phone) : Int :=
  (if ph.tested && ph.reachable then 50 else 0) +
  (if phoneIsRecent ph then 40 else 0) +
  (if ph.score ≠ 0 ∧ 95 ≤ ph.score then 20
   else if ph.score ≠ 0 ∧ 90 ≤ ph.score then 10 else 0) +
  (if ph.ptype = "Mobile" then 10 else 0)

/-- One selected phone as the code's 5-tuple
`(number, quality, type, is_verified, is_recent)`. -/
structure SelPhone where
  number : String
  quality : Int
  ptype : String
  isVerified : Bool
  isRecent : Bool
deriving DecidableEq, Repr

/-- The phone loop of `_extract_contacts`: skip empty and duplicate
numbers, skip DNC numbers, and keep a phone only when it is verified
(tested and reachable), recent, or has score 100 and is reachable. -/
def selectPhonesAux : List Phone → List SelPhone → List SelPhone
  | [], acc => acc
  | ph :: rest, acc =>
      if ph.number = "" ∨ ph.number ∈ acc.map SelPhone.number then
        selectPhonesAux rest acc
      else if ph.dnc then
        selectPhonesAux rest acc
      else
        if (ph.tested && ph.reachable) = true ∨ phoneIsRecent ph = true ∨
            (ph.score ≠ 0 ∧ ph.score = 100 ∧ ph.reachable = true) then
          selectPhonesAux rest
            (acc ++ [⟨ph.number, phoneQuality ph, ph.ptype,
                      ph.tested && ph.reachable, phoneIsRecent ph⟩])
        else
          selectPhonesAux rest acc

/-- Stable insertion into a quality-descending list: the new element
goes in front of the first element of no greater quality, so earlier
elements stay ahead of later equal-quality ones. -/
def insertByQuality (x : SelPhone) : List SelPhone → List SelPhone
  | [] => [x]
  | y :: ys => if y.quality ≤ x.quality then x :: y :: ys else y :: insertByQuality x ys

/-- Stable sort by quality descending — the (unique) reordering
produced by Python's stable `phones.sort(key=lambda x: x[1],
reverse=True)`. -/
def sortByQualityDesc : List SelPhone → List SelPhone
  | [] => []
  | x :: xs => insertByQuality x (sortByQualityDesc xs)

/-- The selected phones, sorted by quality descending. -/
def selectPhones (phones : List Phone) : List SelPhone :=
  sortByQualityDesc (selectPhonesAux phones [])

/-- The email loop of `_extract_contacts`: keep non-empty addresses,
first occurrence of each. -/
def collectEmails : List String → List String → List String
  | [], acc => acc
  | e :: rest, acc =>
      if e ≠ "" ∧ e ∉ acc then collectEmails rest (acc ++ [e])
      else collectEmails rest acc

/-- `BatchDataClient._extract_contacts(person)`. -/
def extract_contacts (person : Person) : Dict :=
  let nameParts :=
    (if person.first ≠ "" then [pyTitle person.first] else []) ++
    (if person.last ≠ "" then [pyTitle person.last] else [])
  let owner_name := " ".intercalate nameParts
  let phones := selectPhones person.phoneNumbers
  let has_verified_phone := phones.any (·.isVerified)
  let has_recent_phone := phones.any (·.isRecent)
  let phone_numbers := phones.map (·.number)
  let emails := collectEmails person.emails []
  let mailing_address :=
    match person.mailing with
    | some m =>
        ", ".intercalate
          (([m.street, m.city, m.state, m.zip]).filter (fun p => p ≠ ""))
    | none => ""
  let data_quality :=
    if has_verified_phone then "verified"
    else if has_recent_phone then "recent"
    else if !phone_numbers.isEmpty then "unverified"
    else "no_phone"
  [("owner_name", vStr owner_name),
   ("phone_1", vStr (phone_numbers.getD 0 "")),
   ("phone_2", vStr (phone_numbers.getD 1 "")),
   ("phone_3", vStr (phone_numbers.getD 2 "")),
   ("email_1", vStr (emails.getD 0 "")),
   ("email_2", vStr (emails.getD 1 "")),
   ("mailing_address", vStr mailing_address),
   ("data_quality", vStr data_quality)]

/-- `BatchDataClient._empty_contacts()`. -/
def empty_contacts : Dict :=
  [("owner_name", vStr ""),
   ("phone_1", vStr ""),
   ("phone_2", vStr ""),
   ("phone_3", vStr ""),
   ("email_1", vStr ""),
   ("email_2", vStr ""),
   ("mailing_address", vStr ""),
   ("data_quality", vStr "no_data")]

/-- `BatchDataClient._empty_enrichment(properties)`. -/
def empty_enrichment (properties : List Dict) : List Dict :=
  properties.map
    (fun p => dmerge (dmerge p empty_contacts) [("enrichment_status", vStr "skipped")])

/-- `MockSkipTraceClient.skip_trace_batch(properties)`. -/
def mock_skip_trace_batch (properties : List Dict) : List Dict :=
  properties.map
    (fun p => dmerge (dmerge p empty_contacts) [("enrichment_status", vStr "mock")])

/-- What one `POST` of a batch can come back as: an HTTP response
with a status code, the parsed `results.persons` list and the body
text, or a raised transport/parse exception with its message. -/
inductive BatchResponse where
  | http (status : Nat) (persons : List Person) (text : String)
  | exc (message : String)

/-- The network, as seen by `skip_trace_batch`: the response to the
batch request issued at each loop index. -/
def Oracle := Nat → BatchResponse

/-- One iteration of the `for j, prop in enumerate(batch)` loop of a
200 response: position `j` gets `persons[j]`'s contacts when present
and marked matched, else empty contacts and `no_match`. -/
def processOne (persons : List Person) (j : Nat) (p : Dict) : Dict :=
  match persons[j]? with
  | some person =>
      if person.matched then
        dmerge (dmerge p (extract_contacts person))
          [("enrichment_status", vStr "success")]
      else
        dmerge (dmerge p empty_contacts)
          [("enrichment_status", vStr "no_match")]
  | none =>
      dmerge (dmerge p empty_contacts)
        [("enrichment_status", vStr "no_match")]

/-- The whole `for j, prop in enumerate(batch)` loop of a 200
response. -/
def processMatches (persons : List Person) : Nat → List Dict → List Dict
  | _, [] => []
  | j, p :: rest => processOne persons j p :: processMatches persons (j + 1) rest

/-- The body of `skip_trace_batch`'s per-batch loop: dispatch on the
response as the code does (`status == 200` / error status / caught
exception, the latter's message truncated to 50 characters). -/
def process_batch (batch : List Dict) : BatchResponse → List Dict
  | .http status persons _ =>
      if status = 200 then processMatches persons 0 batch
      else
        batch.map (fun p =>
          dmerge (dmerge p empty_contacts)
            [("enrichment_status", vStr ("error_" ++ toString status))])
  | .exc msg =>
      batch.map (fun p =>
        dmerge (dmerge p empty_contacts)
          [("enrichment_status", vStr ("error_" ++ msg.take 50))])

/-- The batch loop of `skip_trace_batch`: one request per batch in
order, results appended.  The second component logs the loop index of
each request issued (the loop posts exactly once per batch). -/
def run_batches (o : Oracle) : Nat → List (List Dict) → List Dict × List Nat
  | _, [] => ([], [])
  | i, b :: rest =>
      let r := process_batch b (o i)
      let rest' := run_batches o (i + 1) rest
      (r ++ rest'.1, i :: rest'.2)

/-- `BatchDataClient.skip_trace_batch(properties, batch_size)`: with a
falsy API key, `_empty_enrichment` and no requests; otherwise the
chunked batch loop.  Returns the enriched records and the request
log. -/
def skip_trace_batch (apiKey : String) (o : Oracle) (properties : List Dict)
    (batchSize : Nat) : List Dict × List Nat :=
  if apiKey = "" then (empty_enrichment properties, [])
  else run_batches o 0 (chunk_list properties batchSize)

/-- The contact keys that both `_extract_contacts` and
`_empty_contacts` produce. -/
def contactKeys : List String :=
  ["owner_name", "phone_1", "phone_2", "phone_3", "email_1", "email_2",
   "mailing_address", "data_quality"]

/-- The keys enrichment adds to a property record: the contact fields
and `enrichment_status`. -/
def addedKeys : List String := contactKeys ++ ["enrichment_status"]

/-- The frame condition of enrichment: `out` agrees with `inp` on
every key outside `addedKeys`, and carries each key of `addedKeys`. -/
def FrameOK (inp out : Dict) : Prop :=
  (∀ k, k ∉ addedKeys → dget out k = dget inp k) ∧
  (∀ k ∈ addedKeys, hasKey out k = true)

/-! ## `src/datasf_client.py` -/

/-- `config.DEFAULT_PAGE_SIZE`. -/
def DEFAULT_PAGE_SIZE : Nat := 50000

/-- Python list slicing `l[:n]` for an `int` bound (a negative bound
counts from the end). -/
def pySliceTo (n : Int) (l : List α) : List α :=
  if 0 ≤ n then l.take n.toNat
  else l.take (l.length - min l.length n.natAbs)

/-- The `if limit and len(all_records) >= limit` test of
`_fetch_paginated` (a limit of `None` — and, by Python truthiness,
also `0` — never triggers it). -/
def hitLimit (limit : Option Int) (len : Nat) : Bool :=
  match limit with
  | some n => decide (n ≠ 0 ∧ n ≤ (len : Int))
  | none => false

/-- The `while True` loop of `DataSFClient._fetch_paginated`, with the
page source as an oracle from offset to the page's records and
explicit fuel (`none` = the loop did not finish within `fuel`
iterations).  Break on an empty page; extend; truncate and break when
a truthy `limit` is reached; break on a short page; else advance the
offset by the page size.  (`acc ++ o offset` is the loop's
`all_records` after `extend`.) -/
def fetch_paginated_aux (o : Nat → List α) (limit : Option Int) :
    Nat → Nat → List α → Option (List α)
  | 0, _, _ => none
  | fuel + 1, offset, acc =>
      if (o offset).isEmpty then some acc
      else if hitLimit limit (acc ++ o offset).length then
        some (pySliceTo (limit.getD 0) (acc ++ o offset))
      else if (o offset).length < DEFAULT_PAGE_SIZE then some (acc ++ o offset)
      else fetch_paginated_aux o limit fuel (offset + DEFAULT_PAGE_SIZE) (acc ++ o offset)

/-- `DataSFClient._fetch_paginated(url, params, limit)`: run the loop
from offset 0 with no records accumulated. -/
def fetch_paginated (o : Nat → List α) (limit : Option Int) (fuel : Nat) :
    Option (List α) :=
  fetch_paginated_aux o limit fuel 0 []

/-! ## `src/pipeline.py` -/

/-- The fixed output column ordering of `pipeline.export_to_csv`. -/
def column_order : List String :=
  ["address", "block_lot", "owner_name", "phone_1", "phone_2", "phone_3",
   "email_1", "email_2", "mailing_address", "data_quality", "property_type",
   "year_built", "last_roof_permit_date", "days_since_last_permit"]

/-- Append a record's keys not seen yet — one step of the column-union
a `pandas.DataFrame` performs over a list of dicts. -/
def addKeys (acc : List String) (r : Dict) : List String :=
  r.foldl (fun a kv => if kv.1 ∈ a then a else a ++ [kv.1]) acc

/-- The DataFrame's columns: the union of the records' keys in order
of first appearance. -/
def dfColumns (records : List Dict) : List String :=
  records.foldl addKeys []

/-- `pipeline.export_to_csv(records, path)`: `none` models the early
return that writes no file; otherwise the written header (the fixed
column list restricted to columns some record has) and the rows (each
record projected onto the header). -/
def export_to_csv (records : List Dict) :
    Option (List String × List (List (Option Value))) :=
  if records.isEmpty then none
  else
    let cols := column_order.filter (fun c => decide (c ∈ dfColumns records))
    some (cols, records.map (fun r => cols.map (fun c => dget r c)))

/-- Step 4 of `run_pipeline`: keep the properties whose `block_lot`
is not among the permits' `block_lot` values. -/
def lead_filter (properties permits : List Dict) : List Dict :=
  properties.filter
    (fun p => !(permits.any (fun q => decide (dget q "block_lot" = dget p "block_lot"))))

/-- `pipeline.run_pipeline` downstream of the two fetches: early
return on no properties; dedupe; filter against the permit keys; early
return on no leads; stamp `last_roof_permit_date = None` and
`days_since_last_permit = 9999`; then enrich with the mock client when
`skip_enrichment` is set, else with the live client (whose network is
the oracle and whose key may be absent). -/
def run_pipeline (properties permits : List Dict) (skipEnrichment : Bool)
    (apiKey : String) (o : Oracle) : List Dict :=
  if properties.isEmpty then []
  else
    let props := deduplicate_by_key properties "block_lot"
    let leads := lead_filter props permits
    if leads.isEmpty then []
    else
      let leads := leads.map (fun l =>
        dset (dset l "last_roof_permit_date" vNull)
          "days_since_last_permit" (vInt 9999))
      if skipEnrichment then mock_skip_trace_batch leads
      else (skip_trace_batch apiKey o leads 100).1

/-! ## Helper lemmas on the dict model -/

theorem dget_none_of_hasKey_false {b : Dict} {k : String}
    (h : hasKey b k = false) : dget b k = none := by
  unfold hasKey at h
  cases hd : dget b k with
  | none => rfl
  | some v => rw [hd] at h; simp at h

/-- Lookup in a merged dict: `b`'s binding if present, else `a`'s. -/
theorem dget_dmerge (a b : Dict) (k : String) :
    dget (dmerge a b) k = if hasKey b k then dget b k else dget a k := by
  induction a with
  | nil =>
      unfold dmerge
      simp only [List.filter_nil, List.nil_append]
      cases h : hasKey b k with
      | true => simp
      | false => simp [dget_none_of_hasKey_false h, dget]
  | cons hd tl ih =>
      obtain ⟨k', v'⟩ := hd
      unfold dmerge at ih ⊢
      rw [List.filter_cons]
      cases hb : hasKey b k' with
      | true =>
          simp only [hb, Bool.not_true]
          rw [if_neg (by simp)]
          rw [ih]
          by_cases hk : k' = k
          · subst hk; rw [if_pos hb, if_pos hb]
          · simp only [dget, if_neg hk]
      | false =>
          simp only [hb, Bool.not_false]
          rw [if_pos trivial, List.cons_append]
          by_cases hk : k' = k
          · subst hk
            rw [if_neg (by simp [hb])]
            simp [dget]
          · simp only [dget, if_neg hk]
            rw [ih]

theorem hasKey_dmerge (a b : Dict) (k : String) :
    hasKey (dmerge a b) k = (hasKey b k || hasKey a k) := by
  unfold hasKey
  rw [dget_dmerge]
  cases hb : hasKey b k with
  | true =>
      unfold hasKey at hb
      simp [hb]
  | false =>
      unfold hasKey at hb
      simp [hb]

/-- A key is present iff it occurs among the pairs' first components. -/
theorem hasKey_iff_mem_keys (d : Dict) (k : String) :
    hasKey d k = true ↔ k ∈ d.map Prod.fst := by
  induction d with
  | nil => simp [hasKey, dget]
  | cons hd tl ih =>
      obtain ⟨k', v'⟩ := hd
      by_cases hk : k' = k
      · subst hk; simp [hasKey, dget]
      · simp only [hasKey, dget, if_neg hk, List.map_cons, List.mem_cons]
        rw [← ih]
        simp [hasKey, Ne.symm hk]

theorem dget_dset_self (d : Dict) (k : String) (v : Value) :
    dget (dset d k v) k = some v := by
  induction d with
  | nil => simp [dset, dget]
  | cons hd tl ih =>
      obtain ⟨k', v'⟩ := hd
      by_cases hk : k' = k
      · subst hk; simp [dset, dget]
      · simp [dset, dget, hk, ih]

theorem dget_dset_other (d : Dict) (k k' : String) (v : Value) (h : k' ≠ k) :
    dget (dset d k v) k' = dget d k' := by
  induction d with
  | nil => simp [dset, dget, Ne.symm h]
  | cons hd tl ih =>
      obtain ⟨k₀, v₀⟩ := hd
      by_cases hk : k₀ = k
      · subst hk; simp [dset, dget, Ne.symm h, if_neg h.symm]
      · simp only [dset, if_neg hk, dget]
        by_cases hk' : k₀ = k'
        · simp [hk']
        · simp [hk', ih]

theorem chunkFuel_congr (n : Nat) :
    ∀ (fuel fuel' : Nat) (l : List α), l.length ≤ fuel → l.length ≤ fuel' →
      chunkFuel (n + 1) fuel l = chunkFuel (n + 1) fuel' l := by
  intro fuel
  induction fuel with
  | zero =>
      intro fuel' l hl _
      rw [List.length_eq_zero.mp (Nat.le_zero.mp hl)]
      cases fuel' <;> rfl
  | succ f ih =>
      intro fuel' l hl hl'
      cases l with
      | nil => cases fuel' <;> rfl
      | cons x xs =>
          cases fuel' with
          | zero => simp at hl'
          | succ f' =>
              rw [chunkFuel, chunkFuel]
              congr 1
              exact ih f' _ (by simp at hl ⊢; omega) (by simp at hl' ⊢; omega)

/-- The defining one-step unfolding of `chunk_list` for a non-empty
list and positive chunk size. -/
theorem chunk_list_cons (x : α) (xs : List α) (n : Nat) :
    chunk_list (x :: xs) (n + 1) =
      ((x :: xs).take (n + 1)) :: chunk_list (xs.drop n) (n + 1) := by
  unfold chunk_list
  rw [if_neg (Nat.succ_ne_zero n), if_neg (Nat.succ_ne_zero n)]
  show ((x :: xs).take (n + 1)) :: chunkFuel (n + 1) xs.length ((x :: xs).drop (n + 1)) =
    ((x :: xs).take (n + 1)) :: chunkFuel (n + 1) (xs.drop n).length (xs.drop n)
  congr 1
  exact chunkFuel_congr n xs.length (xs.drop n).length (xs.drop n)
    (by simp) le_rfl

theorem join_chunk_list (n : Nat) :
    ∀ l : List α, (chunk_list l (n + 1)).flatten = l := by
  have key : ∀ (m : Nat) (l : List α), l.length ≤ m →
      (chunk_list l (n + 1)).flatten = l := by
    intro m
    induction m with
    | zero =>
        intro l hl
        rw [List.length_eq_zero.mp (Nat.le_zero.mp hl)]
        simp [chunk_list, chunkFuel]
    | succ m ih =>
        intro l hl
        cases l with
        | nil => simp [chunk_list, chunkFuel]
        | cons x xs =>
            rw [chunk_list_cons]
            simp only [List.flatten_cons]
            rw [ih (xs.drop n) (by simp at hl ⊢; omega)]
            exact List.take_append_drop (n + 1) (x :: xs)
  intro l
  exact key l.length l le_rfl

/-! ## Claim C3 — `format_block_lot` -/

theorem str_toList_append (a b : String) :
    (a ++ b).toList = a.toList ++ b.toList := rfl

theorem toList_ne_nil_of_ne_empty {s : String} (h : s ≠ "") : s.toList ≠ [] := by
  intro hc
  exact h (by cases s with | mk d => simp [String.toList, String.data] at hc; simp [hc])

theorem isDigit_not_sign {c : Char} (h : c.isDigit = true) :
    ¬(c = '+' ∨ c = '-') := by
  rintro (rfl | rfl) <;> simp [Char.isDigit] at h

/-- Zero-filling a non-empty all-digit string to a width at least its
length yields exactly `w` digits. -/
theorem zfill_digits (s : String) (w : Nat)
    (hd : s.toList.all Char.isDigit = true) (hne : s ≠ "")
    (hlen : s.toList.length ≤ w) :
    (zfill s w).toList.length = w ∧ (zfill s w).toList.all Char.isDigit = true := by
  unfold zfill
  by_cases hw : w ≤ s.toList.length
  · have heq : s.toList.length = w := le_antisymm hlen hw
    simp only [if_pos hw]
    exact ⟨heq, hd⟩
  · have hsign : ¬(s.toList.head? = some '+' ∨ s.toList.head? = some '-') := by
      cases hcs : s.toList with
      | nil => exact absurd hcs (toList_ne_nil_of_ne_empty hne)
      | cons c rest =>
          have hcdig : c.isDigit = true := by
            rw [hcs] at hd
            simp [List.all_cons] at hd
            exact hd.1
          have := isDigit_not_sign hcdig
          simp only [List.head?_cons]
          rintro (h | h) <;> [exact this (Or.inl (by injection h));
            exact this (Or.inr (by injection h))]
    simp only [if_neg hw, if_neg hsign]
    constructor
    · show (List.replicate (w - s.toList.length) '0' ++ s.toList).length = w
      rw [List.length_append, List.length_replicate]
      omega
    · show (List.replicate (w - s.toList.length) '0' ++ s.toList).all Char.isDigit = true
      rw [List.all_append, hd]
      simp [List.all_eq_true]

/-- C3: `format_block_lot` returns `""` iff either input is missing or
empty; otherwise it returns the zero-padded `block`, a hyphen and the
zero-padded `lot`.  The output matches `^\d\x7b4\x7d-\d\x7b3\x7d$`
when the inputs are non-empty digit strings of widths at most 4 and 3
(amended: the claim's shape statement fails for wider or non-digit
inputs, see the counterexample).  The function is a pure total Lean
function, hence deterministic. -/
theorem claim_C3 :
    ∀ block lot : Option String,
      (format_block_lot block lot = "" ↔
        (truthyStr block = false ∨ truthyStr lot = false)) ∧
      (truthyStr block = true → truthyStr lot = true →
        format_block_lot block lot =
          zfill (block.getD "") 4 ++ "-" ++ zfill (lot.getD "") 3) ∧
      (∀ bs ls, block = some bs → lot = some ls → bs ≠ "" → ls ≠ "" →
        bs.toList.all Char.isDigit = true → ls.toList.all Char.isDigit = true →
        bs.toList.length ≤ 4 → ls.toList.length ≤ 3 →
        matchesShape (format_block_lot block lot) = true) := by
  intro block lot
  refine ⟨?_, ?_, ?_⟩
  · constructor
    · intro h
      by_contra hc
      push_neg at hc
      obtain ⟨hb, hl⟩ := hc
      simp only [ne_eq, Bool.not_eq_false] at hb hl
      rw [format_block_lot, hb, hl] at h
      simp only [Bool.not_true, Bool.or_self, Bool.false_eq_true, if_false] at h
      have := congrArg String.toList h
      rw [str_toList_append, str_toList_append] at this
      simp [String.toList] at this
    · intro h
      rcases h with h | h <;> simp [format_block_lot, h]
  · intro hb hl
    rw [format_block_lot, hb, hl]
    simp
  · intro bs ls hbs hls hbne hlne hbd hld hblen hllen
    subst hbs; subst hls
    have hb : truthyStr (some bs) = true := by simp [truthyStr, hbne]
    have hl : truthyStr (some ls) = true := by simp [truthyStr, hlne]
    rw [format_block_lot, hb, hl]
    simp only [Bool.not_true, Bool.or_self, Bool.false_eq_true, if_false,
      Option.getD_some]
    set A := (zfill bs 4).toList with hA
    set B := (zfill ls 3).toList with hB
    obtain ⟨hA_len, hA_dig⟩ := zfill_digits bs 4 hbd hbne hblen
    obtain ⟨hB_len, hB_dig⟩ := zfill_digits ls 3 hld hlne hllen
    rw [← hA] at hA_len hA_dig
    rw [← hB] at hB_len hB_dig
    rw [matchesShape]
    have htl : (zfill bs 4 ++ "-" ++ zfill ls 3).toList = A ++ '-' :: B := by
      rw [str_toList_append, str_toList_append, List.append_assoc]
      rfl
    rw [htl]
    have h4 : (A ++ '-' :: B).take 4 = A := by
      rw [← hA_len]
      exact List.take_left _ _
    have hdrop4 : (A ++ '-' :: B).drop 4 = '-' :: B := by
      rw [← hA_len]
      exact List.drop_left _ _
    have hdrop5 : (A ++ '-' :: B).drop 5 = B := by
      have h5 : (5 : Nat) = 4 + 1 := rfl
      rw [h5, ← List.drop_drop, hdrop4]
      rfl
    simp only [h4, hdrop4, hdrop5, hA_dig, hB_dig, List.length_append,
      List.length_cons, hA_len, hB_len]
    simp

/-- C3 counterexample: a 5-digit block is not truncated, so the claim's
`^\d\x7b4\x7d-\d\x7b3\x7d$` shape fails although both inputs are
present and non-empty. -/
theorem claim_C3_counterexample :
    format_block_lot (some "12345") (some "3") = "12345-003" ∧
    matchesShape (format_block_lot (some "12345") (some "3")) = false := by
  decide

/-- C3 witness: the spec's own example, `("12", "3") -> "0012-003"`,
instantiating the amended claim. -/
theorem claim_C3_witness :
    matchesShape (format_block_lot (some "12") (some "3")) = true :=
  (claim_C3 (some "12") (some "3")).2.2 "12" "3" rfl rfl
    (by decide) (by decide) (by decide) (by decide) (by decide) (by decide)

/-! ## Claim C8 — `deduplicate_by_key` -/

theorem dedupAux_cons_some (key : String) (r : Dict) (rs : List Dict)
    (seen : List Value) (v : Value) (hv : dget r key = some v) :
    dedupAux key (r :: rs) seen =
      if pyTruthy v = true ∧ v ∉ seen then r :: dedupAux key rs (v :: seen)
      else dedupAux key rs seen := by
  rw [dedupAux, hv]

theorem dedupAux_cons_none (key : String) (r : Dict) (rs : List Dict)
    (seen : List Value) (hv : dget r key = none) :
    dedupAux key (r :: rs) seen = dedupAux key rs seen := by
  rw [dedupAux, hv]

theorem dedupAux_sublist (key : String) :
    ∀ (l : List Dict) (seen : List Value),
      List.Sublist (dedupAux key l seen) l := by
  intro l
  induction l with
  | nil => intro seen; simp [dedupAux]
  | cons r rs ih =>
      intro seen
      cases hv : dget r key with
      | none =>
          rw [dedupAux_cons_none key r rs seen hv]
          exact (ih seen).cons r
      | some v =>
          rw [dedupAux_cons_some key r rs seen v hv]
          by_cases hc : pyTruthy v = true ∧ v ∉ seen
          · rw [if_pos hc]
            exact (ih (v :: seen)).cons₂ r
          · rw [if_neg hc]
            exact (ih seen).cons r

/-- Every record kept by the dedup loop has a truthy key value that was
not in `seen` when the loop started. -/
theorem dedupAux_mem_key (key : String) :
    ∀ (l : List Dict) (seen : List Value) (r : Dict),
      r ∈ dedupAux key l seen →
      ∃ v, dget r key = some v ∧ pyTruthy v = true ∧ v ∉ seen := by
  intro l
  induction l with
  | nil => intro seen r h; simp [dedupAux] at h
  | cons r₀ rs ih =>
      intro seen r h
      cases hv : dget r₀ key with
      | none =>
          rw [dedupAux_cons_none key r₀ rs seen hv] at h
          exact ih seen r h
      | some v =>
          rw [dedupAux_cons_some key r₀ rs seen v hv] at h
          by_cases hc : pyTruthy v = true ∧ v ∉ seen
          · rw [if_pos hc] at h
            rcases List.mem_cons.mp h with rfl | h'
            · exact ⟨v, hv, hc.1, hc.2⟩
            · obtain ⟨v', h1, h2, h3⟩ := ih (v :: seen) r h'
              exact ⟨v', h1, h2, fun hmem => h3 (List.mem_cons_of_mem v hmem)⟩
          · rw [if_neg hc] at h
            exact ih seen r h

/-- The dedup loop is idempotent (for any starting `seen` set). -/
theorem dedupAux_idem (key : String) :
    ∀ (l : List Dict) (seen : List Value),
      dedupAux key (dedupAux key l seen) seen = dedupAux key l seen := by
  intro l
  induction l with
  | nil => intro seen; simp [dedupAux]
  | cons r rs ih =>
      intro seen
      cases hv : dget r key with
      | none =>
          rw [dedupAux_cons_none key r rs seen hv]
          exact ih seen
      | some v =>
          rw [dedupAux_cons_some key r rs seen v hv]
          by_cases hc : pyTruthy v = true ∧ v ∉ seen
          · rw [if_pos hc]
            rw [dedupAux_cons_some key r _ seen v hv, if_pos hc, ih (v :: seen)]
          · rw [if_neg hc]
            exact ih seen

/-- The first record whose key value is `v` survives the dedup loop
when `v` is truthy and unseen. -/
theorem dedupAux_first (key : String) :
    ∀ (l : List Dict) (seen : List Value) (v : Value) (r : Dict),
      pyTruthy v = true → v ∉ seen →
      l.find? (fun x => decide (dget x key = some v)) = some r →
      r ∈ dedupAux key l seen := by
  intro l
  induction l with
  | nil => intro seen v r _ _ h; simp at h
  | cons r₀ rs ih =>
      intro seen v r htr hseen hfind
      by_cases hp : dget r₀ key = some v
      · rw [List.find?_cons_of_pos _ (by simp [hp])] at hfind
        injection hfind with hfind
        subst hfind
        rw [dedupAux_cons_some key r₀ rs seen v hp, if_pos ⟨htr, hseen⟩]
        exact List.mem_cons_self r₀ _
      · rw [List.find?_cons_of_neg _ (by simp [hp])] at hfind
        cases hv : dget r₀ key with
        | none =>
            rw [dedupAux_cons_none key r₀ rs seen hv]
            exact ih seen v r htr hseen hfind
        | some v₀ =>
            rw [dedupAux_cons_some key r₀ rs seen v₀ hv]
            by_cases hc : pyTruthy v₀ = true ∧ v₀ ∉ seen
            · rw [if_pos hc]
              have hvv : v ≠ v₀ := fun h => hp (h ▸ hv)
              exact List.mem_cons_of_mem r₀
                (ih (v₀ :: seen) v r htr
                  (by simp [hvv]; exact hseen) hfind)
            · rw [if_neg hc]
              exact ih seen v r htr hseen hfind

/-- Conversely, any kept record whose key value is `v` is the first
record of the input with that key value. -/
theorem dedupAux_unique (key : String) :
    ∀ (l : List Dict) (seen : List Value) (v : Value) (r r' : Dict),
      l.find? (fun x => decide (dget x key = some v)) = some r →
      r' ∈ dedupAux key l seen → dget r' key = some v → v ∉ seen →
      r' = r := by
  intro l
  induction l with
  | nil => intro seen v r r' _ h; simp [dedupAux] at h
  | cons r₀ rs ih =>
      intro seen v r r' hfind hmem hkey hseen
      cases hv : dget r₀ key with
      | none =>
          rw [dedupAux_cons_none key r₀ rs seen hv] at hmem
          rw [List.find?_cons_of_neg _ (by simp [hv])] at hfind
          exact ih seen v r r' hfind hmem hkey hseen
      | some v₀ =>
          rw [dedupAux_cons_some key r₀ rs seen v₀ hv] at hmem
          by_cases hc : pyTruthy v₀ = true ∧ v₀ ∉ seen
          · rw [if_pos hc] at hmem
            rcases List.mem_cons.mp hmem with rfl | hmem'
            · rw [hkey] at hv
              injection hv with hv
              rw [List.find?_cons_of_pos _ (by simp [hkey, hv])] at hfind
              exact Option.some.inj hfind
            · by_cases hvv : v = v₀
              · subst hvv
                obtain ⟨w, hw1, _, hw3⟩ := dedupAux_mem_key key rs (v :: seen) r' hmem'
                rw [hkey] at hw1
                injection hw1 with hw1
                subst hw1
                exact absurd (List.mem_cons_self v seen) hw3
              · rw [List.find?_cons_of_neg _
                  (by simp; intro hcontra; rw [hv] at hcontra;
                      exact hvv (by injection hcontra with h; exact h.symm))] at hfind
                exact ih (v₀ :: seen) v r r' hfind hmem' hkey
                  (by simp [hvv]; exact hseen)
          · rw [if_neg hc] at hmem
            rw [List.find?_cons_of_neg _
              (by simp; intro hcontra; rw [hv] at hcontra;
                  -- v₀ = v would make r₀'s key truthy and unseen, contradiction
                  injection hcontra with h
                  rw [h] at hc
                  obtain ⟨w, hw1, hw2, hw3⟩ :=
                    dedupAux_mem_key key rs seen r' hmem
                  rw [hkey] at hw1
                  injection hw1 with hw1
                  subst hw1
                  exact hc ⟨hw2, hseen⟩)] at hfind
            exact ih seen v r r' hfind hmem hkey hseen

/-- C8: deduplication by key is idempotent and order-preserving, and
when a key occurs more than once the first occurrence (in input order)
is the one retained: it is in the output, and every output record with
that key value equals it. -/
theorem claim_C8 (key : String) (l : List Dict) :
    deduplicate_by_key (deduplicate_by_key l key) key = deduplicate_by_key l key ∧
    List.Sublist (deduplicate_by_key l key) l ∧
    (∀ (v : Value) (r : Dict), pyTruthy v = true →
      l.find? (fun x => decide (dget x key = some v)) = some r →
      r ∈ deduplicate_by_key l key ∧
      ∀ r' ∈ deduplicate_by_key l key, dget r' key = some v → r' = r) := by
  refine ⟨dedupAux_idem key l [], dedupAux_sublist key l [], ?_⟩
  intro v r htr hfind
  exact ⟨dedupAux_first key l [] v r htr (by simp) hfind,
    fun r' hmem hkey => dedupAux_unique key l [] v r r' hfind hmem hkey (by simp)⟩

/-- C8 witness: a three-record list with a repeated key `0001-001`
keeps the first of the two repeats. -/
theorem claim_C8_witness :
    [(("block_lot", Value.vStr "0001-001") :: [("address", Value.vStr "A")]),
     [("block_lot", Value.vStr "0001-001"), ("address", Value.vStr "B")],
     [("block_lot", Value.vStr "0002-002"), ("address", Value.vStr "C")]].find?
        (fun x => decide (dget x "block_lot" = some (Value.vStr "0001-001"))) =
      some [("block_lot", Value.vStr "0001-001"), ("address", Value.vStr "A")] ∧
    [("block_lot", Value.vStr "0001-001"), ("address", Value.vStr "A")] ∈
      deduplicate_by_key
        [[("block_lot", Value.vStr "0001-001"), ("address", Value.vStr "A")],
         [("block_lot", Value.vStr "0001-001"), ("address", Value.vStr "B")],
         [("block_lot", Value.vStr "0002-002"), ("address", Value.vStr "C")]]
        "block_lot" :=
  ⟨by decide,
   ((claim_C8 "block_lot"
      [[("block_lot", Value.vStr "0001-001"), ("address", Value.vStr "A")],
       [("block_lot", Value.vStr "0001-001"), ("address", Value.vStr "B")],
       [("block_lot", Value.vStr "0002-002"), ("address", Value.vStr "C")]]).2.2
      (Value.vStr "0001-001")
      [("block_lot", Value.vStr "0001-001"), ("address", Value.vStr "A")]
      (by decide) (by decide)).1⟩

/-! ## Claim C2 — the lead filter -/

theorem perm_any_eq {α : Type} (g : α → Bool) {l l' : List α} (h : l.Perm l') :
    l.any g = l'.any g := by
  cases ha : l.any g with
  | true =>
      obtain ⟨x, hx, hgx⟩ := List.any_eq_true.mp ha
      symm
      exact List.any_eq_true.mpr ⟨x, h.mem_iff.mp hx, hgx⟩
  | false =>
      symm
      rw [List.any_eq_false] at ha ⊢
      intro x hx
      exact ha x (h.mem_iff.mpr hx)

/-- C2: the lead filter is a set-difference.  For records that carry a
`block_lot` key (as all property and permit records do), a property is
in the output iff no permit shares its `block_lot` value; the output
is a sublist of the input (relative order preserved); and the output
is unchanged under any permutation of the permit list. -/
theorem claim_C2 (properties permits : List Dict)
    (hprop : ∀ p ∈ properties, hasKey p "block_lot" = true)
    (hperm : ∀ q ∈ permits, hasKey q "block_lot" = true) :
    (∀ p, p ∈ lead_filter properties permits ↔
      p ∈ properties ∧ ∀ q ∈ permits, dget q "block_lot" ≠ dget p "block_lot") ∧
    List.Sublist (lead_filter properties permits) properties ∧
    (∀ permits', permits.Perm permits' →
      lead_filter properties permits' = lead_filter properties permits) := by
  refine ⟨?_, List.filter_sublist _, ?_⟩
  · intro p
    unfold lead_filter
    rw [List.mem_filter]
    constructor
    · rintro ⟨hmem, hpred⟩
      refine ⟨hmem, ?_⟩
      intro q hq hcontra
      rw [Bool.not_eq_true', List.any_eq_false] at hpred
      have := hpred q hq
      simp [hcontra] at this
    · rintro ⟨hmem, hnone⟩
      refine ⟨hmem, ?_⟩
      rw [Bool.not_eq_true', List.any_eq_false]
      intro q hq
      simp
      exact hnone q hq
  · intro permits' hp
    unfold lead_filter
    apply List.filter_congr
    intro p _
    have := perm_any_eq
      (fun q => decide (dget q "block_lot" = dget p "block_lot")) hp
    rw [this]

/-- C2 witness: with one permit on key `0002-002`, the property on key
`0001-001` survives the filter. -/
theorem claim_C2_witness :
    [("block_lot", Value.vStr "0001-001")] ∈
      lead_filter [[("block_lot", Value.vStr "0001-001")],
                   [("block_lot", Value.vStr "0002-002")]]
        [[("block_lot", Value.vStr "0002-002")]] :=
  ((claim_C2 [[("block_lot", Value.vStr "0001-001")],
              [("block_lot", Value.vStr "0002-002")]]
      [[("block_lot", Value.vStr "0002-002")]]
      (by decide) (by decide)).1
    [("block_lot", Value.vStr "0001-001")]).mpr
    ⟨by decide, by decide⟩

/-! ## Claims C4 and C5 — phone extraction -/

theorem mem_insertByQuality (x sp : SelPhone) (l : List SelPhone) :
    sp ∈ insertByQuality x l ↔ sp = x ∨ sp ∈ l := by
  induction l with
  | nil => simp [insertByQuality]
  | cons y ys ih =>
      rw [insertByQuality]
      by_cases hc : y.quality ≤ x.quality
      · rw [if_pos hc]
        simp [List.mem_cons]
      · rw [if_neg hc]
        simp only [List.mem_cons, ih]
        tauto

theorem mem_sortByQualityDesc (sp : SelPhone) (l : List SelPhone) :
    sp ∈ sortByQualityDesc l ↔ sp ∈ l := by
  induction l with
  | nil => simp [sortByQualityDesc]
  | cons x xs ih =>
      rw [sortByQualityDesc, mem_insertByQuality]
      simp [ih]

/-- Every phone kept by the selection loop that is not carried over
from the accumulator comes from an input candidate with `dnc = false`
and the same number. -/
theorem selectPhonesAux_mem (phones : List Phone) :
    ∀ (acc : List SelPhone) (sp : SelPhone), sp ∈ selectPhonesAux phones acc →
      sp ∈ acc ∨ ∃ ph ∈ phones, ph.number = sp.number ∧ ph.dnc = false := by
  induction phones with
  | nil =>
      intro acc sp h
      rw [selectPhonesAux] at h
      exact Or.inl h
  | cons ph rest ih =>
      intro acc sp h
      rw [selectPhonesAux] at h
      by_cases h1 : ph.number = "" ∨ ph.number ∈ acc.map SelPhone.number
      · rw [if_pos h1] at h
        rcases ih acc sp h with h' | ⟨ph', hm, he, hd⟩
        exacts [Or.inl h', Or.inr ⟨ph', List.mem_cons_of_mem _ hm, he, hd⟩]
      · rw [if_neg h1] at h
        by_cases h2 : ph.dnc = true
        · rw [if_pos h2] at h
          rcases ih acc sp h with h' | ⟨ph', hm, he, hd⟩
          exacts [Or.inl h', Or.inr ⟨ph', List.mem_cons_of_mem _ hm, he, hd⟩]
        · rw [if_neg h2] at h
          by_cases h3 : (ph.tested && ph.reachable) = true ∨ phoneIsRecent ph = true ∨
              (ph.score ≠ 0 ∧ ph.score = 100 ∧ ph.reachable = true)
          · rw [if_pos h3] at h
            rcases ih _ sp h with h' | ⟨ph', hm, he, hd⟩
            · rcases List.mem_append.mp h' with ha | hb
              · exact Or.inl ha
              · simp only [List.mem_singleton] at hb
                refine Or.inr ⟨ph, List.mem_cons_self _ _, ?_, ?_⟩
                · rw [hb]
                · rw [Bool.not_eq_true] at h2
                  exact h2
            · exact Or.inr ⟨ph', List.mem_cons_of_mem _ hm, he, hd⟩
          · rw [if_neg h3] at h
            rcases ih acc sp h with h' | ⟨ph', hm, he, hd⟩
            exacts [Or.inl h', Or.inr ⟨ph', List.mem_cons_of_mem _ hm, he, hd⟩]

theorem extract_phone1 (p : Person) :
    dget (extract_contacts p) "phone_1" =
      some (Value.vStr (((selectPhones p.phoneNumbers).map SelPhone.number).getD 0 "")) :=
  rfl

theorem extract_phone2 (p : Person) :
    dget (extract_contacts p) "phone_2" =
      some (Value.vStr (((selectPhones p.phoneNumbers).map SelPhone.number).getD 1 "")) :=
  rfl

theorem extract_phone3 (p : Person) :
    dget (extract_contacts p) "phone_3" =
      some (Value.vStr (((selectPhones p.phoneNumbers).map SelPhone.number).getD 2 "")) :=
  rfl

theorem mem_of_getD_ne {l : List String} {i : Nat} {n : String}
    (hn : n ≠ "") (h : l.getD i "" = n) : n ∈ l := by
  rw [List.getD_eq_getElem?_getD] at h
  cases hg : l[i]? with
  | none =>
      rw [hg] at h
      simp at h
      exact absurd h.symm hn
  | some a =>
      rw [hg] at h
      simp at h
      rw [← h]
      exact List.getElem?_mem hg

/-- C4: a do-not-call phone candidate never reaches `phone_1..3`: any
non-empty number appearing in those extracted fields originates from an
input candidate with `dnc = false`, whatever its other signals. -/
theorem claim_C4 (person : Person) (n : String) (hn : n ≠ "")
    (h : dget (extract_contacts person) "phone_1" = some (Value.vStr n) ∨
         dget (extract_contacts person) "phone_2" = some (Value.vStr n) ∨
         dget (extract_contacts person) "phone_3" = some (Value.vStr n)) :
    ∃ ph ∈ person.phoneNumbers, ph.number = n ∧ ph.dnc = false := by
  have hmemnum : n ∈ (selectPhones person.phoneNumbers).map SelPhone.number := by
    rcases h with h | h | h
    · rw [extract_phone1 person] at h
      exact mem_of_getD_ne hn (Value.vStr.inj (Option.some.inj h))
    · rw [extract_phone2 person] at h
      exact mem_of_getD_ne hn (Value.vStr.inj (Option.some.inj h))
    · rw [extract_phone3 person] at h
      exact mem_of_getD_ne hn (Value.vStr.inj (Option.some.inj h))
  obtain ⟨sp, hsp, hspn⟩ := List.mem_map.mp hmemnum
  have hsel : sp ∈ selectPhonesAux person.phoneNumbers [] :=
    (mem_sortByQualityDesc sp _).mp hsp
  rcases selectPhonesAux_mem person.phoneNumbers [] sp hsel with hacc | ⟨ph, hph, hnum, hdnc⟩
  · simp at hacc
  · exact ⟨ph, hph, hnum.trans hspn, hdnc⟩

/-- C4 witness: a qualifying non-DNC phone on a matched person — the
number in `phone_1` comes from a `dnc = false` candidate. -/
theorem claim_C4_witness :
    ∃ ph ∈ (Person.mk "" "" [⟨"555", true, true, 100, false, "", ""⟩] [] none true).phoneNumbers,
      ph.number = "555" ∧ ph.dnc = false :=
  claim_C4 (Person.mk "" "" [⟨"555", true, true, 100, false, "", ""⟩] [] none true)
    "555" (by decide) (Or.inl (by decide))

/-- C5 counterexample: the first example phone (`"555"`, tested,
reachable, score 100, no recent report, no type) scores 50 + 20 = 70
quality points under the code's scheme, not the 100 the claim states. -/
theorem claim_C5_counterexample :
    phoneQuality ⟨"555", true, true, 100, false, "", ""⟩ = 70 ∧ (70 : Int) ≠ 100 := by
  decide

/-- C5 (amended): both example phones qualify, `"555"` ranks first —
with 70 points (not 100) against `"111"`'s 60 — and the extracted
fields are `phone_1 = "555"`, `phone_2 = "111"`. -/
theorem claim_C5 :
    phoneQuality ⟨"555", true, true, 100, false, "", ""⟩ = 70 ∧
    phoneQuality ⟨"111", false, false, 96, false, "2024-01-01", ""⟩ = 60 ∧
    selectPhones [⟨"555", true, true, 100, false, "", ""⟩,
                  ⟨"111", false, false, 96, false, "2024-01-01", ""⟩] =
      [⟨"555", 70, "", true, false⟩, ⟨"111", 60, "", false, true⟩] ∧
    dget (extract_contacts (Person.mk "" ""
        [⟨"555", true, true, 100, false, "", ""⟩,
         ⟨"111", false, false, 96, false, "2024-01-01", ""⟩] [] none true))
      "phone_1" = some (Value.vStr "555") ∧
    dget (extract_contacts (Person.mk "" ""
        [⟨"555", true, true, 100, false, "", ""⟩,
         ⟨"111", false, false, 96, false, "2024-01-01", ""⟩] [] none true))
      "phone_2" = some (Value.vStr "111") := by
  decide

/-! ## Claim C9 — the exporter -/

theorem mem_addKeys (r : Dict) :
    ∀ (acc : List String) (k : String),
      k ∈ addKeys acc r ↔ k ∈ acc ∨ k ∈ r.map Prod.fst := by
  induction r with
  | nil => intro acc k; simp [addKeys]
  | cons kv rest ih =>
      intro acc k
      have step : addKeys acc (kv :: rest) =
          addKeys (if kv.1 ∈ acc then acc else acc ++ [kv.1]) rest := rfl
      rw [step, ih]
      by_cases hk : kv.1 ∈ acc
      · rw [if_pos hk]
        simp only [List.map_cons, List.mem_cons]
        constructor
        · tauto
        · rintro (h | rfl | h)
          · exact Or.inl h
          · exact Or.inl hk
          · exact Or.inr h
      · rw [if_neg hk]
        simp only [List.mem_append, List.mem_singleton, List.map_cons, List.mem_cons]
        tauto

theorem mem_dfColumns_aux :
    ∀ (records : List Dict) (acc : List String) (k : String),
      k ∈ records.foldl addKeys acc ↔
        k ∈ acc ∨ ∃ r ∈ records, k ∈ r.map Prod.fst := by
  intro records
  induction records with
  | nil => intro acc k; simp
  | cons r rest ih =>
      intro acc k
      rw [List.foldl_cons, ih, mem_addKeys]
      simp only [List.mem_cons]
      constructor
      · rintro ((h | h) | ⟨r', hr', hk⟩)
        · exact Or.inl h
        · exact Or.inr ⟨r, Or.inl rfl, h⟩
        · exact Or.inr ⟨r', Or.inr hr', hk⟩
      · rintro (h | ⟨r', (rfl | hr'), hk⟩)
        · exact Or.inl (Or.inl h)
        · exact Or.inl (Or.inr hk)
        · exact Or.inr ⟨r', hr', hk⟩

theorem mem_dfColumns (records : List Dict) (k : String) :
    k ∈ dfColumns records ↔ ∃ r ∈ records, k ∈ r.map Prod.fst := by
  rw [dfColumns, mem_dfColumns_aux]
  simp

/-- C9: exporting an empty record list writes no file (and runs
without raising); for a non-empty list the header is exactly the fixed
ordered column list restricted to columns present in at least one
record, in that fixed order. -/
theorem claim_C9 :
    export_to_csv [] = none ∧
    ∀ records : List Dict, records ≠ [] →
      ∃ hdr rows, export_to_csv records = some (hdr, rows) ∧
        List.Sublist hdr column_order ∧
        ∀ c, c ∈ hdr ↔ c ∈ column_order ∧ ∃ r ∈ records, hasKey r c = true := by
  constructor
  · rfl
  · intro records hne
    rw [export_to_csv, if_neg (by simp [hne])]
    refine ⟨_, _, rfl, List.filter_sublist _, ?_⟩
    intro c
    rw [List.mem_filter]
    constructor
    · rintro ⟨hcol, hdf⟩
      rw [decide_eq_true_iff, mem_dfColumns] at hdf
      obtain ⟨r, hr, hk⟩ := hdf
      exact ⟨hcol, r, hr, (hasKey_iff_mem_keys r c).mpr hk⟩
    · rintro ⟨hcol, r, hr, hk⟩
      refine ⟨hcol, ?_⟩
      rw [decide_eq_true_iff, mem_dfColumns]
      exact ⟨r, hr, (hasKey_iff_mem_keys r c).mp hk⟩

/-- C9 witness: one record with only an `address` key — the header the
claim describes exists for it. -/
theorem claim_C9_witness :
    ∃ hdr rows,
      export_to_csv [[("address", Value.vStr "x")]] = some (hdr, rows) ∧
      List.Sublist hdr column_order ∧
      ∀ c, c ∈ hdr ↔ c ∈ column_order ∧
        ∃ r ∈ [[("address", Value.vStr "x")]], hasKey r c = true :=
  claim_C9.2 [[("address", Value.vStr "x")]] (by decide)

/-! ## Claim C1 — end-to-end scenario -/

/-- C1 counterexample: running the pipeline with enrichment skipped
(`skip_enrichment = True` selects the mock client) stamps
`enrichment_status = "mock"` on both leads, not `"skipped"` as the
claim states. -/
theorem claim_C1_counterexample :
    (run_pipeline
        [[("block_lot", Value.vStr "0001-001"), ("address", Value.vStr "1 A ST")],
         [("block_lot", Value.vStr "0002-002"), ("address", Value.vStr "2 A ST")],
         [("block_lot", Value.vStr "0003-003"), ("address", Value.vStr "3 A ST")]]
        [[("block_lot", Value.vStr "0002-002"), ("filed_date", Value.vStr "2024-01-02")]]
        true "" (fun _ => BatchResponse.exc "")).map
      (fun r => dget r "enrichment_status") =
      [some (Value.vStr "mock"), some (Value.vStr "mock")] ∧
    Value.vStr "mock" ≠ Value.vStr "skipped" := by
  decide

/-- C1 (amended): with the three properties `0001-001, 0002-002,
0003-003` and a permit on `0002-002`, the pipeline run with
`skip_enrichment = True` yields exactly the two leads `0001-001` and
`0003-003`, each with `data_quality = "no_data"`,
`days_since_last_permit = 9999`, and `enrichment_status = "mock"`
(`"skipped"` is produced instead on the live-client path when no API
key is configured, final conjunct). -/
theorem claim_C1 :
    ((run_pipeline
        [[("block_lot", Value.vStr "0001-001"), ("address", Value.vStr "1 A ST")],
         [("block_lot", Value.vStr "0002-002"), ("address", Value.vStr "2 A ST")],
         [("block_lot", Value.vStr "0003-003"), ("address", Value.vStr "3 A ST")]]
        [[("block_lot", Value.vStr "0002-002"), ("filed_date", Value.vStr "2024-01-02")]]
        true "" (fun _ => BatchResponse.exc "")).length = 2 ∧
     (run_pipeline
        [[("block_lot", Value.vStr "0001-001"), ("address", Value.vStr "1 A ST")],
         [("block_lot", Value.vStr "0002-002"), ("address", Value.vStr "2 A ST")],
         [("block_lot", Value.vStr "0003-003"), ("address", Value.vStr "3 A ST")]]
        [[("block_lot", Value.vStr "0002-002"), ("filed_date", Value.vStr "2024-01-02")]]
        true "" (fun _ => BatchResponse.exc "")).map
       (fun r => (dget r "block_lot", dget r "data_quality",
                  dget r "days_since_last_permit", dget r "enrichment_status")) =
      [(some (Value.vStr "0001-001"), some (Value.vStr "no_data"),
        some (Value.vInt 9999), some (Value.vStr "mock")),
       (some (Value.vStr "0003-003"), some (Value.vStr "no_data"),
        some (Value.vInt 9999), some (Value.vStr "mock"))]) ∧
    (run_pipeline
        [[("block_lot", Value.vStr "0001-001"), ("address", Value.vStr "1 A ST")],
         [("block_lot", Value.vStr "0002-002"), ("address", Value.vStr "2 A ST")],
         [("block_lot", Value.vStr "0003-003"), ("address", Value.vStr "3 A ST")]]
        [[("block_lot", Value.vStr "0002-002"), ("filed_date", Value.vStr "2024-01-02")]]
        false "" (fun _ => BatchResponse.exc "")).map
      (fun r => dget r "enrichment_status") =
      [some (Value.vStr "skipped"), some (Value.vStr "skipped")] := by
  decide

/-! ## Claim C7 — the paging client -/

theorem fetch_aux_le {α : Type} (o : Nat → List α) (n : Int) (hn : 0 < n) :
    ∀ (fuel offset : Nat) (acc res : List α), (acc.length : Int) ≤ n →
      fetch_paginated_aux o (some n) fuel offset acc = some res →
      (res.length : Int) ≤ n := by
  intro fuel
  induction fuel with
  | zero => intro offset acc res _ h; simp [fetch_paginated_aux] at h
  | succ f ih =>
      intro offset acc res hacc h
      rw [fetch_paginated_aux] at h
      by_cases he : (o offset).isEmpty = true
      · rw [if_pos he] at h
        injection h with h
        rw [← h]
        exact hacc
      · rw [if_neg he] at h
        by_cases hhit : hitLimit (some n) (acc ++ o offset).length = true
        · rw [if_pos hhit] at h
          injection h with h
          rw [← h]
          unfold pySliceTo
          rw [Option.getD_some, if_pos (le_of_lt hn)]
          have : ((acc ++ o offset).take n.toNat).length ≤ n.toNat :=
            le_trans (List.length_take_le _ _) le_rfl
          omega
        · rw [if_neg hhit] at h
          have hlt : ((acc ++ o offset).length : Int) < n := by
            unfold hitLimit at hhit
            rw [decide_eq_true_iff] at hhit
            push_neg at hhit
            have := hhit (by omega)
            omega
          by_cases hshort : (o offset).length < DEFAULT_PAGE_SIZE
          · rw [if_pos hshort] at h
            injection h with h
            rw [← h]
            exact le_of_lt hlt
          · rw [if_neg hshort] at h
            exact ih _ _ _ (le_of_lt hlt) h

theorem fetch_aux_exact {α : Type} (o : Nat → List α) (n : Int) (hn : 0 < n)
    (hfull : ∀ off, (o off).length = DEFAULT_PAGE_SIZE) :
    ∀ (fuel offset : Nat) (acc res : List α),
      fetch_paginated_aux o (some n) fuel offset acc = some res →
      (res.length : Int) = n := by
  intro fuel
  induction fuel with
  | zero => intro offset acc res h; simp [fetch_paginated_aux] at h
  | succ f ih =>
      intro offset acc res h
      rw [fetch_paginated_aux] at h
      have hne : ¬((o offset).isEmpty = true) := by
        intro hemp
        have hlen := hfull offset
        rw [List.isEmpty_iff] at hemp
        rw [hemp] at hlen
        simp [DEFAULT_PAGE_SIZE] at hlen
      rw [if_neg hne] at h
      by_cases hhit : hitLimit (some n) (acc ++ o offset).length = true
      · rw [if_pos hhit] at h
        injection h with h
        rw [← h]
        unfold pySliceTo
        rw [Option.getD_some, if_pos (le_of_lt hn)]
        have hlen : n ≤ ((acc ++ o offset).length : Int) := by
          unfold hitLimit at hhit
          rw [decide_eq_true_iff] at hhit
          exact hhit.2
        rw [List.length_take]
        omega
      · rw [if_neg hhit] at h
        have hshort : ¬((o offset).length < DEFAULT_PAGE_SIZE) := by
          rw [hfull offset]
          omega
        rw [if_neg hshort] at h
        exact ih _ _ _ h

theorem fetch_first_page_short {α : Type} (o : Nat → List α) (fuel : Nat)
    (hshort : (o 0).length < DEFAULT_PAGE_SIZE) :
    fetch_paginated o none (fuel + 1) = some (o 0) := by
  unfold fetch_paginated
  rw [fetch_paginated_aux]
  by_cases he : (o 0).isEmpty = true
  · rw [if_pos he]
    rw [List.isEmpty_iff] at he
    rw [he]
  · rw [if_neg he, if_neg (by simp [hitLimit]), if_pos hshort]
    simp

theorem fetch_never_stops {α : Type} (o : Nat → List α)
    (hfull : ∀ off, (o off).length = DEFAULT_PAGE_SIZE) :
    ∀ (fuel offset : Nat) (acc : List α),
      fetch_paginated_aux o none fuel offset acc = none := by
  intro fuel
  induction fuel with
  | zero => intro offset acc; rfl
  | succ f ih =>
      intro offset acc
      rw [fetch_paginated_aux]
      have hne : ¬((o offset).isEmpty = true) := by
        intro hemp
        have hlen := hfull offset
        rw [List.isEmpty_iff] at hemp
        rw [hemp] at hlen
        simp [DEFAULT_PAGE_SIZE] at hlen
      rw [if_neg hne, if_neg (by simp [hitLimit]),
        if_neg (by rw [hfull offset]; omega)]
      exact ih _ _

/-- C7 (amended): for a supplied positive limit, at most `limit`
records are returned, and exactly `limit` when every page is full
(enough data exists); with no limit the loop stops at the first short
page, returning exactly its accumulated records, and never stops while
pages keep coming full (so the loop ends exactly on a short page or on
reaching the limit).  A supplied limit of `0` is falsy in Python and
behaves as "no limit" — see the counterexample. -/
theorem claim_C7 (α : Type) :
    (∀ (o : Nat → List α) (n : Int) (fuel : Nat) (res : List α),
      0 < n → fetch_paginated o (some n) fuel = some res →
      (res.length : Int) ≤ n) ∧
    (∀ (o : Nat → List α) (n : Int) (fuel : Nat) (res : List α),
      0 < n → (∀ off, (o off).length = DEFAULT_PAGE_SIZE) →
      fetch_paginated o (some n) fuel = some res →
      (res.length : Int) = n) ∧
    (∀ (o : Nat → List α) (fuel : Nat),
      (o 0).length < DEFAULT_PAGE_SIZE →
      fetch_paginated o none (fuel + 1) = some (o 0)) ∧
    (∀ (o : Nat → List α) (fuel : Nat),
      (∀ off, (o off).length = DEFAULT_PAGE_SIZE) →
      fetch_paginated o none fuel = none) := by
  refine ⟨?_, ?_, ?_, ?_⟩
  · intro o n fuel res hn h
    exact fetch_aux_le o n hn fuel 0 [] res (by simp; omega) h
  · intro o n fuel res hn hfull h
    exact fetch_aux_exact o n hn hfull fuel 0 [] res h
  · intro o fuel hshort
    exact fetch_first_page_short o fuel hshort
  · intro o fuel hfull
    exact fetch_never_stops o hfull fuel 0 []

/-- C7 counterexample: with a caller-supplied limit of `0` (falsy in
Python, so the truncation check never fires) a one-record page is
returned whole: the result has 1 > 0 records, violating "at most
`limit` records in all cases". -/
theorem claim_C7_counterexample :
    fetch_paginated (fun _ => [(0 : Nat)]) (some 0) 5 = some [0] ∧
    ([(0 : Nat)].length : Int) = 1 ∧ ¬((1 : Int) ≤ 0) := by
  decide

/-- C7 witness: a single short page under limit 5 — the run returns it
and the amended bound holds. -/
theorem claim_C7_witness :
    (([(0 : Nat)] : List Nat).length : Int) ≤ 5 :=
  (claim_C7 Nat).1 (fun _ => [0]) 5 2 [0] (by decide) (by decide)

/-! ## Claims C10 and C6 — enrichment output shape and error handling -/

theorem extract_contacts_keys (p : Person) :
    (extract_contacts p).map Prod.fst = contactKeys := rfl

theorem empty_contacts_keys : empty_contacts.map Prod.fst = contactKeys := rfl

/-- Merging a record with a contact dict and a status pair satisfies
the enrichment frame condition. -/
theorem frame_merge (p c : Dict) (v : Value)
    (hc : c.map Prod.fst = contactKeys) :
    FrameOK p (dmerge (dmerge p c) [("enrichment_status", v)]) := by
  constructor
  · intro k hk
    have hke : k ≠ "enrichment_status" := by
      intro hcontra
      exact hk (by rw [hcontra]; simp [addedKeys, contactKeys])
    have hks : ¬(hasKey [("enrichment_status", v)] k = true) := by
      rw [hasKey_iff_mem_keys]
      simpa using hke
    have hkc : ¬(hasKey c k = true) := by
      rw [hasKey_iff_mem_keys, hc]
      intro hmem
      exact hk (by simp [addedKeys]; exact Or.inl hmem)
    rw [dget_dmerge, if_neg hks, dget_dmerge, if_neg hkc]
  · intro k hk
    rw [hasKey_dmerge]
    by_cases hke : k = "enrichment_status"
    · subst hke
      simp [hasKey, dget]
    · have hkc : k ∈ contactKeys := by
        rw [addedKeys, List.mem_append] at hk
        rcases hk with h | h
        · exact h
        · simp at h
          exact absurd h hke
      have : hasKey c k = true := (hasKey_iff_mem_keys c k).mpr (by rw [hc]; exact hkc)
      rw [hasKey_dmerge, this]
      simp

theorem processMatches_length (persons : List Person) :
    ∀ (batch : List Dict) (j : Nat),
      (processMatches persons j batch).length = batch.length := by
  intro batch
  induction batch with
  | nil => intro j; rfl
  | cons p rest ih =>
      intro j
      rw [processMatches]
      simp [ih]

theorem processOne_frame (persons : List Person) (j : Nat) (p : Dict) :
    FrameOK p (processOne persons j p) := by
  unfold processOne
  split
  · split
    · exact frame_merge p _ _ (extract_contacts_keys _)
    · exact frame_merge p _ _ empty_contacts_keys
  · exact frame_merge p _ _ empty_contacts_keys

theorem processMatches_get (persons : List Person) :
    ∀ (batch : List Dict) (j k : Nat) (p : Dict),
      batch[k]? = some p →
      ∃ out, (processMatches persons j batch)[k]? = some out ∧ FrameOK p out := by
  intro batch
  induction batch with
  | nil => intro j k p h; simp at h
  | cons q rest ih =>
      intro j k p h
      cases k with
      | zero =>
          rw [List.getElem?_cons_zero] at h
          injection h with h
          subst h
          refine ⟨processOne persons j q, ?_, processOne_frame persons j q⟩
          rw [processMatches]
          exact List.getElem?_cons_zero
      | succ k' =>
          rw [List.getElem?_cons_succ] at h
          rw [processMatches, List.getElem?_cons_succ]
          exact ih (j + 1) k' p h

theorem process_batch_length (batch : List Dict) (resp : BatchResponse) :
    (process_batch batch resp).length = batch.length := by
  cases resp with
  | http s persons text =>
      rw [process_batch]
      by_cases hs : s = 200
      · rw [if_pos hs]
        exact processMatches_length persons batch 0
      · rw [if_neg hs]
        simp
  | exc m =>
      rw [process_batch]
      simp

theorem process_batch_get (batch : List Dict) (resp : BatchResponse) (k : Nat) (p : Dict)
    (h : batch[k]? = some p) :
    ∃ out, (process_batch batch resp)[k]? = some out ∧ FrameOK p out := by
  cases resp with
  | http s persons text =>
      rw [process_batch]
      by_cases hs : s = 200
      · rw [if_pos hs]
        exact processMatches_get persons batch 0 k p h
      · rw [if_neg hs]
        refine ⟨dmerge (dmerge p empty_contacts)
            [("enrichment_status", Value.vStr ("error_" ++ toString s))], ?_,
          frame_merge p empty_contacts _ empty_contacts_keys⟩
        simp [List.getElem?_map, h]
  | exc m =>
      rw [process_batch]
      refine ⟨dmerge (dmerge p empty_contacts)
          [("enrichment_status", Value.vStr ("error_" ++ m.take 50))], ?_,
        frame_merge p empty_contacts _ empty_contacts_keys⟩
      simp [List.getElem?_map, h]

theorem run_batches_calls (o : Oracle) :
    ∀ (chunks : List (List Dict)) (i : Nat),
      (run_batches o i chunks).2 = List.range' i chunks.length := by
  intro chunks
  induction chunks with
  | nil => intro i; rfl
  | cons b rest ih =>
      intro i
      rw [run_batches]
      simp only [List.length_cons, List.range'_succ]
      rw [ih (i + 1)]

theorem run_batches_length (o : Oracle) :
    ∀ (chunks : List (List Dict)) (i : Nat),
      (run_batches o i chunks).1.length = chunks.flatten.length := by
  intro chunks
  induction chunks with
  | nil => intro i; rfl
  | cons b rest ih =>
      intro i
      rw [run_batches]
      simp only [List.flatten_cons, List.length_append, process_batch_length]
      rw [ih (i + 1)]

theorem run_batches_get (o : Oracle) :
    ∀ (chunks : List (List Dict)) (i k : Nat) (p : Dict),
      chunks.flatten[k]? = some p →
      ∃ out, (run_batches o i chunks).1[k]? = some out ∧ FrameOK p out := by
  intro chunks
  induction chunks with
  | nil => intro i k p h; simp at h
  | cons b rest ih =>
      intro i k p h
      rw [List.flatten_cons] at h
      rw [run_batches]
      show ∃ out,
        (process_batch b (o i) ++ (run_batches o (i + 1) rest).1)[k]? = some out ∧
          FrameOK p out
      rw [List.getElem?_append] at h
      rw [List.getElem?_append, process_batch_length]
      by_cases hk : k < b.length
      · rw [if_pos hk] at h ⊢
        exact process_batch_get b (o i) k p h
      · rw [if_neg hk] at h ⊢
        exact ih (i + 1) (k - b.length) p h

theorem drop_append_len {α : Type} (l₁ l₂ : List α) (i : Nat) :
    (l₁ ++ l₂).drop (l₁.length + i) = l₂.drop i := by
  induction l₁ with
  | nil => simp
  | cons x xs ih => simpa [Nat.succ_add] using ih

/-- The slice of the batch loop's output that corresponds to batch `i`
is that batch's own processing of that batch's own response. -/
theorem run_batches_segment (o : Oracle) :
    ∀ (chunks : List (List Dict)) (i₀ i : Nat) (b : List Dict),
      chunks[i]? = some b →
      ((run_batches o i₀ chunks).1.drop
          (((chunks.take i).map List.length).sum)).take b.length
        = process_batch b (o (i₀ + i)) := by
  intro chunks
  induction chunks with
  | nil => intro i₀ i b h; simp at h
  | cons c rest ih =>
      intro i₀ i b h
      rw [run_batches]
      cases i with
      | zero =>
          rw [List.getElem?_cons_zero] at h
          injection h with h
          subst h
          simp only [List.take_zero, List.map_nil, List.sum_nil, List.drop_zero,
            Nat.add_zero]
          rw [← process_batch_length c (o i₀)]
          exact List.take_left _ _
      | succ i' =>
          rw [List.getElem?_cons_succ] at h
          have hsum : (((c :: rest).take (i' + 1)).map List.length).sum =
              c.length + ((rest.take i').map List.length).sum := by
            simp [List.take_succ_cons]
          rw [hsum, ← process_batch_length c (o i₀), drop_append_len]
          rw [ih (i₀ + 1) i' b h]
          have harg : i₀ + 1 + i' = i₀ + (i' + 1) := by omega
          rw [harg]

/-- C10: every enrichment variant — mock, the live client's
no-credential skip path, and the live client under an arbitrary
network oracle (success, no-match, HTTP-error and exception paths) —
returns exactly one output record per input record in the same order,
each output agreeing with its input on every key outside the contact
fields and `enrichment_status` and carrying all of those added keys. -/
theorem claim_C10 (props : List Dict) (o : Oracle) (apiKey : String)
    (hkey : apiKey ≠ "") :
    ((mock_skip_trace_batch props).length = props.length ∧
      ∀ (k : Nat) (p : Dict), props[k]? = some p →
        ∃ out, (mock_skip_trace_batch props)[k]? = some out ∧ FrameOK p out) ∧
    ((skip_trace_batch "" o props 100).1.length = props.length ∧
      ∀ (k : Nat) (p : Dict), props[k]? = some p →
        ∃ out, (skip_trace_batch "" o props 100).1[k]? = some out ∧ FrameOK p out) ∧
    ((skip_trace_batch apiKey o props 100).1.length = props.length ∧
      ∀ (k : Nat) (p : Dict), props[k]? = some p →
        ∃ out, (skip_trace_batch apiKey o props 100).1[k]? = some out ∧
          FrameOK p out) := by
  refine ⟨⟨by simp [mock_skip_trace_batch], ?_⟩,
          ⟨by simp [skip_trace_batch, empty_enrichment], ?_⟩, ⟨?_, ?_⟩⟩
  · intro k p h
    refine ⟨dmerge (dmerge p empty_contacts)
        [("enrichment_status", Value.vStr "mock")], ?_,
      frame_merge p empty_contacts _ empty_contacts_keys⟩
    simp [mock_skip_trace_batch, List.getElem?_map, h]
  · intro k p h
    refine ⟨dmerge (dmerge p empty_contacts)
        [("enrichment_status", Value.vStr "skipped")], ?_,
      frame_merge p empty_contacts _ empty_contacts_keys⟩
    simp [skip_trace_batch, empty_enrichment, List.getElem?_map, h]
  · rw [skip_trace_batch, if_neg hkey]
    rw [run_batches_length o (chunk_list props 100) 0]
    rw [show (100 : Nat) = 99 + 1 from rfl, join_chunk_list]
  · intro k p h
    rw [skip_trace_batch, if_neg hkey]
    apply run_batches_get o (chunk_list props 100) 0 k p
    rw [show (100 : Nat) = 99 + 1 from rfl, join_chunk_list]
    exact h

/-- C10 witness: a one-property run through the live client whose only
batch raises an exception — the output record exists and satisfies the
frame condition. -/
theorem claim_C10_witness :
    ∃ out,
      (skip_trace_batch "KEY" (fun _ => BatchResponse.exc "boom")
          [[("block_lot", Value.vStr "0001-001")]] 100).1[0]? = some out ∧
      FrameOK [("block_lot", Value.vStr "0001-001")] out :=
  (claim_C10 [[("block_lot", Value.vStr "0001-001")]]
      (fun _ => BatchResponse.exc "boom") "KEY" (by decide)).2.2.2 0
    [("block_lot", Value.vStr "0001-001")] (by decide)

/-- C6: in the live client (truthy API key), the request log is one
request per batch in loop order (no retries); the output always has
one record per input property, so no failure aborts later batches; a
batch answered with a non-2xx HTTP status yields, for every property
of that batch, empty contacts and `enrichment_status =
"error_<statuscode>"`; a batch whose request raises yields empty
contacts and `enrichment_status = "error_<first 50 exception
characters>"`; and a batch's output slice depends only on that batch's
own response. -/
theorem claim_C6 (props : List Dict) (o : Oracle) (apiKey : String)
    (hkey : apiKey ≠ "") :
    (skip_trace_batch apiKey o props 100).2 =
      List.range' 0 (chunk_list props 100).length ∧
    (skip_trace_batch apiKey o props 100).1.length = props.length ∧
    (∀ (i : Nat) (b : List Dict), (chunk_list props 100)[i]? = some b →
      (∀ (s : Nat) (persons : List Person) (text : String),
        o i = BatchResponse.http s persons text → (s < 200 ∨ 300 ≤ s) →
        ((skip_trace_batch apiKey o props 100).1.drop
            ((((chunk_list props 100).take i).map List.length).sum)).take b.length
          = b.map (fun p => dmerge (dmerge p empty_contacts)
              [("enrichment_status", Value.vStr ("error_" ++ toString s))])) ∧
      (∀ m : String, o i = BatchResponse.exc m →
        ((skip_trace_batch apiKey o props 100).1.drop
            ((((chunk_list props 100).take i).map List.length).sum)).take b.length
          = b.map (fun p => dmerge (dmerge p empty_contacts)
              [("enrichment_status", Value.vStr ("error_" ++ m.take 50))])) ∧
      (∀ o' : Oracle, o' i = o i →
        ((skip_trace_batch apiKey o' props 100).1.drop
            ((((chunk_list props 100).take i).map List.length).sum)).take b.length
          = ((skip_trace_batch apiKey o props 100).1.drop
              ((((chunk_list props 100).take i).map List.length).sum)).take b.length)) := by
  refine ⟨?_, ?_, ?_⟩
  · rw [skip_trace_batch, if_neg hkey]
    exact run_batches_calls o (chunk_list props 100) 0
  · rw [skip_trace_batch, if_neg hkey]
    rw [run_batches_length o (chunk_list props 100) 0]
    rw [show (100 : Nat) = 99 + 1 from rfl, join_chunk_list]
  · intro i b hb
    have hseg : ∀ o₁ : Oracle,
        ((skip_trace_batch apiKey o₁ props 100).1.drop
            ((((chunk_list props 100).take i).map List.length).sum)).take b.length
          = process_batch b (o₁ i) := by
      intro o₁
      rw [skip_trace_batch, if_neg hkey]
      have := run_batches_segment o₁ (chunk_list props 100) 0 i b hb
      rw [this, Nat.zero_add]
    refine ⟨?_, ?_, ?_⟩
    · intro s persons text ho hs
      rw [hseg o, ho, process_batch,
        if_neg (by omega : ¬(s = 200))]
    · intro m ho
      rw [hseg o, ho, process_batch]
    · intro o' ho'
      rw [hseg o, hseg o', ho']

/-- C6 witness: one property, one batch answered with HTTP 500 — the
output slice for that batch is the error-stamped batch. -/
theorem claim_C6_witness :
    ((skip_trace_batch "KEY" (fun _ => BatchResponse.http 500 [] "oops")
        [[("block_lot", Value.vStr "0001-001")]] 100).1.drop
      ((((chunk_list [[("block_lot", Value.vStr "0001-001")]] 100).take 0).map
          List.length).sum)).take
        [[("block_lot", Value.vStr "0001-001")]].length
      = [[("block_lot", Value.vStr "0001-001")]].map
          (fun p => dmerge (dmerge p empty_contacts)
            [("enrichment_status", Value.vStr ("error_" ++ toString 500))]) :=
  (((claim_C6 [[("block_lot", Value.vStr "0001-001")]]
      (fun _ => BatchResponse.http 500 [] "oops") "KEY" (by decide)).2.2 0
      [[("block_lot", Value.vStr "0001-001")]] (by decide)).1 500 [] "oops"
    rfl (by omega))

end SFRoof

